import Mathlib

/-!
Shallow embedding of `src/Emotion/EmotionHandler.py` (the RL decision engine
of the vtuber emotion module) and verification of the spec's claims about it.

Numeric values (rewards, initiative, epsilon, gamma, feedback) are Python
floats in the source; they are modelled as rationals (`ℚ`).  The torch
network and optimizer are opaque in the source's dataflow, so the model
parameters are an abstract type `P`, the network forward pass is an abstract
`score : P → List ℚ → List ℚ`, and one autograd/optimizer step is an
abstract `optStep : P → List ℚ → ℕ → ℚ → P` taking the parameters, the
input state, the chosen action slot and the scalar target written into that
slot.  Randomness (`np.random.rand()`, `random.randrange`, `random.uniform`,
`random.sample`) enters as explicit oracle arguments.
-/

/-- Module-level `emotions` list (line 12 of the source). -/
def emotions : List String :=
  ["anger", "disgust", "fear", "joy", "neutral", "sadness", "surprise"]

/-- `state_size = len(emotions) * 2` (line 13). -/
def state_size : ℕ := emotions.length * 2

/-- `action_size = 3` (line 14). -/
def action_size : ℕ := 3

/-- One replay-buffer entry, the tuple appended by `remember`
(line 162): `(state, action, reward, next_state, done)` as consumed by
`replay` (line 143). -/
structure Transition where
  state : List ℚ
  action : ℕ
  reward : ℚ
  nextState : List ℚ
  done : Bool
deriving DecidableEq, Repr

/-- The mutable fields of the `EmotionHandler` instance that the claims
touch (lines 47-75).  `P` is the opaque torch parameter state. -/
structure Engine (P : Type) where
  rewardMap : List (String × ℚ)
  initiativeMap : List (String × ℚ)
  currentUserEmotion : String
  gamma : ℚ
  epsilon : ℚ
  epsilonMin : ℚ
  epsilonDecay : ℚ
  learningRate : ℚ
  previousState : Option (List ℚ)
  memory : List Transition
  params : P
  initialized : Bool
deriving DecidableEq

/-- Python dict lookup on an insertion-ordered association list. -/
def lookupQ (m : List (String × ℚ)) (k : String) : Option ℚ :=
  match m with
  | [] => none
  | p :: rest => if p.1 = k then some p.2 else lookupQ rest k

/-- Python `m[k] += d` on an insertion-ordered association list: the entry
for `k` is bumped by `d` in place, every other entry and the key order are
untouched.  (On a key absent from the dict Python raises `KeyError`; this
model is only ever applied to keys of the fixed emotion set, which the
maps always contain.) -/
def bumpKey (m : List (String × ℚ)) (k : String) (d : ℚ) : List (String × ℚ) :=
  m.map (fun p => if p.1 = k then (p.1, p.2 + d) else p)

/-- `get_current_state` (lines 95-101): reward values in insertion order
followed by initiative values in insertion order. -/
def getCurrentState {P : Type} (e : Engine P) : List ℚ :=
  e.rewardMap.map Prod.snd ++ e.initiativeMap.map Prod.snd

/-- The body of `__init__` (lines 46-75) run on a fresh instance: both maps
hold 1 for every emotion, `current_user_emotion = 'neutral'`, the
hyperparameters come from the arguments, `previous_state = None`, the
replay deque is empty, and the instance is marked `_initialized`. -/
def initFields {P : Type} (gamma epsilon epsilonMin epsilonDecay learningRate : ℚ)
    (freshParams : P) : Engine P :=
  { rewardMap := emotions.map (fun e => (e, 1))
  , initiativeMap := emotions.map (fun e => (e, 1))
  , currentUserEmotion := "neutral"
  , gamma := gamma
  , epsilon := epsilon
  , epsilonMin := epsilonMin
  , epsilonDecay := epsilonDecay
  , learningRate := learningRate
  , previousState := none
  , memory := []
  , params := freshParams
  , initialized := true }

/-- `EmotionHandler(...)` as a whole: `__new__` (lines 34-38) returns the
existing singleton when there is one, and `__init__` (lines 42-44) returns
immediately when that instance is already `_initialized`; otherwise the
`__init__` body runs with the given arguments. -/
def construct {P : Type} (existing : Option (Engine P))
    (gamma epsilon epsilonMin epsilonDecay learningRate : ℚ) (freshParams : P) : Engine P :=
  match existing with
  | some inst =>
      if inst.initialized then inst
      else initFields gamma epsilon epsilonMin epsilonDecay learningRate freshParams
  | none => initFields gamma epsilon epsilonMin epsilonDecay learningRate freshParams

/-- A first construction with the default hyperparameters of line 40-41:
`gamma=0.95, epsilon=1.0, epsilon_min=0.01, epsilon_decay=0.995,
learning_rate=0.001`. -/
def defaultEngine : Engine Unit :=
  construct none (95/100) 1 (1/100) (199/200) (1/1000) ()

/-- `collections.deque(maxlen=4000)` append (line 70 with line 162): when
the buffer is full the oldest (leftmost) entry is discarded. -/
def pushBuf {α : Type} (buf : List α) (t : α) : List α :=
  if buf.length < 4000 then buf ++ [t] else buf.tail ++ [t]

/-- `remember` (lines 160-162): append the tuple
`(previous_state, action, reward, current_state, done)` to the deque. -/
def remember {P : Type} (e : Engine P) (previous_state : List ℚ) (action : ℕ)
    (reward : ℚ) (current_state : List ℚ) (done : Bool) : Engine P :=
  { e with memory :=
      pushBuf e.memory ⟨previous_state, action, reward, current_state, done⟩ }

/-- `update_emotion_and_initiative` (lines 173-181): snapshot the current
state into `previous_state`, then bump the reward entry by `feedback` and
the initiative entry by `0.1`. -/
def update_emotion_and_initiative {P : Type} (e : Engine P)
    (user_prompt_emotion : String) (feedback : ℚ) : Engine P :=
  { e with previousState := some (getCurrentState e)
         , rewardMap := bumpKey e.rewardMap user_prompt_emotion feedback
         , initiativeMap := bumpKey e.initiativeMap user_prompt_emotion (1/10) }

/-- Helper of `argmaxIdx`: best index / best value scan of the remaining
list, replacing only on a strictly greater value. -/
def argmaxGo (bi : ℕ) (bv : ℚ) (i : ℕ) : List ℚ → ℕ
  | [] => bi
  | y :: ys => if bv < y then argmaxGo i y (i + 1) ys else argmaxGo bi bv (i + 1) ys

/-- `torch.argmax` over a score vector (line 136): index of the first
occurrence of the maximal value. -/
def argmaxIdx : List ℚ → ℕ
  | [] => 0
  | x :: xs => argmaxGo 0 x 1 xs

/-- `act` (lines 130-136): if the uniform draw from `[0,1)` is `<= epsilon`
explore with the uniformly drawn action `randAction ∈ {0,1,2}`, otherwise
exploit with the argmax of the network scores on the state. -/
def act {P : Type} (score : P → List ℚ → List ℚ) (p : P) (eps draw : ℚ)
    (randAction : ℕ) (state : List ℚ) : ℕ :=
  if draw ≤ eps then randAction else argmaxIdx (score p state)

/-- `torch.max` over a nonempty score vector (line 147).  The source only
applies it to the 3-wide network output; the `[]` base case is arbitrary. -/
def listMax : List ℚ → ℚ
  | [] => 0
  | [x] => x
  | x :: y :: ys => max x (listMax (y :: ys))

/-- One iteration of the `replay` minibatch loop (lines 143-155): the
bootstrapped target starts as the transition reward and, unless the
transition is terminal, becomes
`reward + gamma * max(model(next_state))` with the parameters current at
this iteration; the optimizer step then writes that target into the chosen
action's slot against the prediction on `state` with those same
parameters. -/
def replayStep {P : Type} (score : P → List ℚ → List ℚ)
    (optStep : P → List ℚ → ℕ → ℚ → P) (gamma : ℚ) (p : P) (tr : Transition) : P :=
  let target := tr.reward
  let target := if tr.done then target
                else tr.reward + gamma * listMax (score p tr.nextState)
  optStep p tr.state tr.action target

/-- The epsilon update at the end of `replay` (lines 157-158):
`if epsilon > epsilon_min: epsilon *= epsilon_decay`. -/
def epsDecayStep (epsMin epsDecay eps : ℚ) : ℚ :=
  if epsMin < eps then eps * epsDecay else eps

/-- `replay` (lines 138-158): silently return when the buffer holds fewer
than `batchSize` transitions; otherwise run the per-transition training
loop over the sampled minibatch (the sample itself is an oracle argument,
`random.sample` being external randomness) and then decay epsilon once. -/
def replay {P : Type} (score : P → List ℚ → List ℚ)
    (optStep : P → List ℚ → ℕ → ℚ → P) (e : Engine P) (batchSize : ℕ)
    (minibatch : List Transition) : Engine P :=
  if e.memory.length < batchSize then e
  else
    { e with params := minibatch.foldl (replayStep score optStep e.gamma) e.params
           , epsilon := epsDecayStep e.epsilonMin e.epsilonDecay e.epsilon }

/-- `learn_from_inference` (lines 183-192): update the statistics maps for
the current user emotion with the sampled feedback, read the new state,
choose an action on it, and append
`(current_state, action, feedback, previous_state, False)` to the replay
buffer — exactly the argument order of line 192.  `previous_state` was
set by `update_emotion_and_initiative` just above, so the `getD []`
default of the `Option` read is never taken. -/
def learnFromInference {P : Type} (score : P → List ℚ → List ℚ) (e : Engine P)
    (feedback draw : ℚ) (randAction : ℕ) : Engine P :=
  let e1 := update_emotion_and_initiative e e.currentUserEmotion feedback
  let current_state := getCurrentState e1
  let action := act score e1.params e1.epsilon draw randAction current_state
  remember e1 current_state action feedback (e1.previousState.getD []) false

/-- Descending comparison on initiative entries used by
`sorted(self.initiative_map.items(), key=lambda item: item[1], reverse=True)`
(line 118): `a` precedes `b` when `a`'s initiative is at least `b`'s.
`List.insertionSort` with this relation inserts an earlier element before
an equal-valued later one, which is exactly the stability of Python's
`sorted` read descending. -/
def byInitiativeDesc (a b : String × ℚ) : Prop := b.2 ≤ a.2

instance decByInitiativeDesc : DecidableRel byInitiativeDesc :=
  fun a b => inferInstanceAs (Decidable (b.2 ≤ a.2))

instance totalByInitiativeDesc : IsTotal (String × ℚ) byInitiativeDesc :=
  ⟨fun a b => le_total b.2 a.2⟩

instance transByInitiativeDesc : IsTrans (String × ℚ) byInitiativeDesc :=
  ⟨fun _ _ _ hab hbc => le_trans hbc hab⟩

/-- Line 118: the initiative map sorted by value, descending, stably. -/
def sortedDesc (m : List (String × ℚ)) : List (String × ℚ) :=
  List.insertionSort byInitiativeDesc m

/-- `map_action_to_emotions` (lines 110-128).  Indexing
`sorted_emotions[i][0]` is modelled with `·[i]?`; `none` models the
`IndexError` Python would raise on a too-short list.  Action `0` returns
the top name, action `1` the top two, and any other action (the bare
`else`) the top three. -/
def mapActionToEmotions (m : List (String × ℚ)) (action : ℤ) : Option (List String) :=
  let s := sortedDesc m
  if action = 0 then
    match s[0]? with
    | some p0 => some [p0.1]
    | none => none
  else if action = 1 then
    match s[0]?, s[1]? with
    | some p0, some p1 => some [p0.1, p1.1]
    | _, _ => none
  else
    match s[0]?, s[1]?, s[2]? with
    | some p0, some p1, some p2 => some [p0.1, p1.1, p2.1]
    | _, _, _ => none

/-- Epsilon after `n` successful training updates of a default-constructed
engine: start at `1.0`, apply the guarded decay of lines 157-158 with
`epsilon_min = 0.01` and `epsilon_decay = 0.995` once per update. -/
def epsAfter : ℕ → ℚ
  | 0 => 1
  | n + 1 => epsDecayStep (1/100) (199/200) (epsAfter n)

/-- The concrete initiative map of the spec's ranking example: joy 5,
anger 3, fear 3, all others 1, keys in the fixed emotion-set order. -/
def exampleInitiativeMap : List (String × ℚ) :=
  [("anger", 3), ("disgust", 1), ("fear", 3), ("joy", 5), ("neutral", 1),
   ("sadness", 1), ("surprise", 1)]

/-- Claim C9: constructing `EmotionHandler` a second time returns the same
singleton instance with every field unchanged: the hyperparameter
arguments and fresh parameters of the later construction are all
ignored. -/
theorem construct_returns_existing_unchanged {P : Type} (inst : Engine P)
    (g e em ed lr : ℚ) (p : P) (h : inst.initialized = true) :
    construct (some inst) g e em ed lr p = inst := by
  simp [construct, h]

/-- Witness for C9: re-constructing over the default-constructed engine
with entirely different hyperparameters returns it unchanged. -/
theorem construct_returns_existing_unchanged_witness :
    defaultEngine.initialized = true ∧
    construct (some defaultEngine) 0 0 0 0 0 () = defaultEngine :=
  ⟨by decide, construct_returns_existing_unchanged defaultEngine 0 0 0 0 0 () (by decide)⟩

/-- Claim C7: when the replay buffer holds fewer than `batchSize`
transitions, `replay` is a silent no-op: the whole engine state — model
parameters, epsilon, and the buffer — is returned unchanged. -/
theorem replay_noop_when_buffer_small {P : Type} (score : P → List ℚ → List ℚ)
    (optStep : P → List ℚ → ℕ → ℚ → P) (e : Engine P) (batchSize : ℕ)
    (minibatch : List Transition) (h : e.memory.length < batchSize) :
    replay score optStep e batchSize minibatch = e := by
  simp [replay, h]

/-- Witness for C7: a fresh engine has an empty buffer, so a batch-32
training round leaves it untouched. -/
theorem replay_noop_when_buffer_small_witness :
    defaultEngine.memory.length < 32 ∧
    replay (fun _ _ => ([] : List ℚ)) (fun p _ _ _ => p) defaultEngine 32 [] = defaultEngine :=
  ⟨by decide, replay_noop_when_buffer_small _ _ _ _ _ (by decide)⟩

/-- Counterexample to claim C6 as stated: with `epsilon = 0` the explore
test `np.random.rand() <= self.epsilon` still fires when the uniform draw
from `[0,1)` is exactly `0`, so `act` returns the random action (here `1`)
rather than the argmax of the scores (here `0`). -/
theorem act_zero_draw_explores :
    act (fun _ _ => [(5 : ℚ), 0, 0]) () 0 0 1 [] = 1 ∧
    argmaxIdx ((fun _ _ => [(5 : ℚ), 0, 0]) () ([] : List ℚ)) = 0 := by
  decide

/-- Claim C6 as amended: with `epsilon = 0`, for every strictly positive
random draw (and every state, random action and approximator), `act`
deterministically returns the argmax of the scores, first maximal index on
ties. -/
theorem act_exploit_of_pos_draw {P : Type} (score : P → List ℚ → List ℚ)
    (p : P) (draw : ℚ) (randAction : ℕ) (state : List ℚ) (h : 0 < draw) :
    act score p 0 draw randAction state = argmaxIdx (score p state) := by
  simp [act, not_le.mpr h]

/-- Witness for the amended C6 at a concrete approximator and draw. -/
theorem act_exploit_of_pos_draw_witness :
    (0 : ℚ) < 1 ∧
    act (fun _ _ => [(5 : ℚ), 0, 0]) () 0 1 2 [] =
      argmaxIdx ((fun _ _ => [(5 : ℚ), 0, 0]) () ([] : List ℚ)) :=
  ⟨by decide, act_exploit_of_pos_draw _ _ _ _ _ (by decide)⟩

/-- Claim C3: whenever the training step actually runs (`batchSize` many
transitions are available), the resulting parameters are the fold over the
minibatch in which each transition's target is `reward` when terminal and
`reward + gamma * max(score(next_state))` otherwise, with the scores
evaluated at the parameters `p` current at that iteration — the same
parameters handed to the optimizer step for the prediction. -/
theorem replay_target_formula {P : Type} (score : P → List ℚ → List ℚ)
    (optStep : P → List ℚ → ℕ → ℚ → P) (e : Engine P) (batchSize : ℕ)
    (minibatch : List Transition) (h : batchSize ≤ e.memory.length) :
    (replay score optStep e batchSize minibatch).params =
      minibatch.foldl
        (fun p tr => optStep p tr.state tr.action
          (if tr.done then tr.reward
           else tr.reward + e.gamma * listMax (score p tr.nextState))) e.params := by
  unfold replay
  rw [if_neg (Nat.not_lt.mpr h)]
  rfl

/-- Witness for C3: a one-transition batch on a zero-threshold round,
with scalar parameters, an additive optimizer step and a constant score
head; both sides evaluate to `7 + 19/20`. -/
theorem replay_target_formula_witness :
    (0 ≤ defaultEngine.memory.length) ∧
    (replay (fun _ _ => [(1 : ℚ)]) (fun p _ _ _ => p) defaultEngine 0
        ([⟨[2], 0, 7, [3], false⟩] : List Transition)).params =
      List.foldl
        (fun p tr => (fun p _ _ _ => p) p tr.state tr.action
          (if tr.done then tr.reward
           else tr.reward + defaultEngine.gamma * listMax ((fun _ _ => [(1 : ℚ)]) p tr.nextState)))
        defaultEngine.params ([⟨[2], 0, 7, [3], false⟩] : List Transition) :=
  ⟨by decide, replay_target_formula _ _ _ _ _ (by decide)⟩

/-- Claim C1 (code-bug evidence): evaluating one full
`learn_from_inference` cycle on a fresh default engine (feedback `1/2`,
explore draw `1/2`, random action `0`) shows the pushed transition holds
the post-update state (`reward[neutral] = 3/2`, `initiative[neutral] =
11/10`) in its `state` slot and the pre-update all-ones state in its
`nextState` slot — the reverse of the order named by `remember`'s own
parameters and by the spec. -/
theorem learnFromInference_swaps_state_slots :
    (learnFromInference (fun _ _ => [0, 0, 0]) defaultEngine (1/2) (1/2) 0).memory =
      [⟨[1, 1, 1, 1, 3/2, 1, 1, 1, 1, 1, 1, 11/10, 1, 1], 0, 1/2,
        [1, 1, 1, 1, 1, 1, 1, 1, 1, 1, 1, 1, 1, 1], false⟩] ∧
    ([1, 1, 1, 1, 3/2, 1, 1, 1, 1, 1, 1, 11/10, 1, 1] : List ℚ) ≠
      [1, 1, 1, 1, 1, 1, 1, 1, 1, 1, 1, 1, 1, 1] := by
  constructor
  · norm_num [learnFromInference, update_emotion_and_initiative, getCurrentState, remember,
      pushBuf, act, defaultEngine, construct, initFields, emotions, bumpKey]
    decide
  · norm_num

/-- Bumping key `k` leaves the lookup of every other key unchanged. -/
theorem lookupQ_bumpKey_other (m : List (String × ℚ)) (k k' : String) (d : ℚ)
    (h : k' ≠ k) : lookupQ (bumpKey m k d) k' = lookupQ m k' := by
  induction m with
  | nil => rfl
  | cons p rest ih =>
    have hkq : ¬ (k = k') := fun hkk => h hkk.symm
    by_cases hp : p.1 = k
    · simp [bumpKey, lookupQ, hp, hkq]
      exact ih
    · by_cases hq : p.1 = k'
      · simp [bumpKey, lookupQ, hp, hq, h]
      · simp [bumpKey, lookupQ, hp, hq]
        exact ih

/-- Bumping key `k` adds exactly `d` to the looked-up value at `k`. -/
theorem lookupQ_bumpKey_self (m : List (String × ℚ)) (k : String) (d : ℚ) :
    lookupQ (bumpKey m k d) k = (lookupQ m k).map (fun v => v + d) := by
  induction m with
  | nil => rfl
  | cons p rest ih =>
    by_cases hp : p.1 = k
    · simp [bumpKey, lookupQ, hp]
    · simp [bumpKey, lookupQ, hp] at ih ⊢
      exact ih

/-- A key appearing among the map's keys has a value. -/
theorem lookupQ_some_of_mem (m : List (String × ℚ)) (k : String)
    (h : k ∈ m.map Prod.fst) : ∃ v, lookupQ m k = some v := by
  induction m with
  | nil => simp at h
  | cons p rest ih =>
    by_cases hp : p.1 = k
    · exact ⟨p.2, by simp [lookupQ, hp]⟩
    · have hr : k ∈ rest.map Prod.fst := by
        rcases List.mem_cons.mp h with h1 | h1
        · exact absurd h1.symm hp
        · exact h1
      obtain ⟨v, hv⟩ := ih hr
      exact ⟨v, by simp [lookupQ, hp, hv]⟩

/-- Claim C2: for every emotion in the fixed set and every feedback `f`,
`update_emotion_and_initiative` adds exactly `f` to that emotion's reward
entry and exactly `0.1` to its initiative entry, and leaves the entries of
every other emotion in both maps unchanged. -/
theorem update_emotion_and_initiative_spec {P : Type} (e : Engine P)
    (emo : String) (f : ℚ) (hmem : emo ∈ emotions)
    (hr : e.rewardMap.map Prod.fst = emotions)
    (hi : e.initiativeMap.map Prod.fst = emotions) :
    (∃ r, lookupQ e.rewardMap emo = some r ∧
       lookupQ (update_emotion_and_initiative e emo f).rewardMap emo = some (r + f)) ∧
    (∃ i, lookupQ e.initiativeMap emo = some i ∧
       lookupQ (update_emotion_and_initiative e emo f).initiativeMap emo = some (i + 1/10)) ∧
    (∀ emo', emo' ≠ emo →
       lookupQ (update_emotion_and_initiative e emo f).rewardMap emo' =
         lookupQ e.rewardMap emo' ∧
       lookupQ (update_emotion_and_initiative e emo f).initiativeMap emo' =
         lookupQ e.initiativeMap emo') := by
  refine ⟨?_, ?_, ?_⟩
  · obtain ⟨r, hv⟩ := lookupQ_some_of_mem e.rewardMap emo (hr ▸ hmem)
    refine ⟨r, hv, ?_⟩
    show lookupQ (bumpKey e.rewardMap emo f) emo = some (r + f)
    rw [lookupQ_bumpKey_self, hv]
    rfl
  · obtain ⟨i, hv⟩ := lookupQ_some_of_mem e.initiativeMap emo (hi ▸ hmem)
    refine ⟨i, hv, ?_⟩
    show lookupQ (bumpKey e.initiativeMap emo (1/10)) emo = some (i + 1/10)
    rw [lookupQ_bumpKey_self, hv]
    rfl
  · intro emo' hne
    exact ⟨lookupQ_bumpKey_other e.rewardMap emo emo' f hne,
           lookupQ_bumpKey_other e.initiativeMap emo emo' (1/10) hne⟩

/-- Witness for C2 on the fresh default engine with feedback `2` for
`"joy"`: both existence hypotheses and the frame are realised there. -/
theorem update_emotion_and_initiative_spec_witness :
    ("joy" ∈ emotions ∧
     defaultEngine.rewardMap.map Prod.fst = emotions ∧
     defaultEngine.initiativeMap.map Prod.fst = emotions) ∧
    ((∃ r, lookupQ defaultEngine.rewardMap "joy" = some r ∧
        lookupQ (update_emotion_and_initiative defaultEngine "joy" 2).rewardMap "joy" =
          some (r + 2)) ∧
     (∃ i, lookupQ defaultEngine.initiativeMap "joy" = some i ∧
        lookupQ (update_emotion_and_initiative defaultEngine "joy" 2).initiativeMap "joy" =
          some (i + 1/10)) ∧
     (∀ emo', emo' ≠ "joy" →
        lookupQ (update_emotion_and_initiative defaultEngine "joy" 2).rewardMap emo' =
          lookupQ defaultEngine.rewardMap emo' ∧
        lookupQ (update_emotion_and_initiative defaultEngine "joy" 2).initiativeMap emo' =
          lookupQ defaultEngine.initiativeMap emo')) :=
  ⟨⟨by decide, by decide, by decide⟩,
   update_emotion_and_initiative_spec defaultEngine "joy" 2 (by decide) (by decide) (by decide)⟩

/-- While the decayed value is still above `epsilon_min`, the guarded decay
keeps multiplying, so the epsilon after `n` updates is exactly `0.995 ^ n`
whenever `0.995 ^ n` is still above `0.01`. -/
theorem epsAfter_eq_pow : ∀ n : ℕ, (1 : ℚ)/100 < ((199 : ℚ)/200)^n →
    epsAfter n = ((199 : ℚ)/200)^n := by
  intro n
  induction n with
  | zero => intro _; simp [epsAfter]
  | succ n ih =>
    intro h
    have hstep : ((199 : ℚ)/200)^(n + 1) ≤ ((199 : ℚ)/200)^n :=
      calc ((199 : ℚ)/200)^(n + 1) = ((199 : ℚ)/200)^n * ((199 : ℚ)/200) := pow_succ _ _
        _ ≤ ((199 : ℚ)/200)^n * 1 :=
            mul_le_mul_of_nonneg_left (by norm_num) (by positivity)
        _ = ((199 : ℚ)/200)^n := mul_one _
    have hn : (1 : ℚ)/100 < ((199 : ℚ)/200)^n := lt_of_lt_of_le h hstep
    show epsDecayStep (1/100) (199/200) (epsAfter n) = _
    rw [ih hn]
    unfold epsDecayStep
    rw [if_pos hn, pow_succ]

/-- Counterexample to claim C5 as stated: `epsilon_min` is not a floor.
The guard `epsilon > epsilon_min` still passes at `0.995^918 ≈ 0.010037`,
so the 919th training update multiplies once more and leaves
`epsilon = 0.995^919 ≈ 0.009987`, strictly below `0.01`. -/
theorem epsilon_falls_below_min : epsAfter 919 < 1/100 := by
  have h918 : (1 : ℚ)/100 < ((199 : ℚ)/200)^918 := by
    rw [div_pow, div_lt_div_iff₀ (by norm_num) (by positivity)]
    norm_num
  have h919 : ((199 : ℚ)/200)^919 < 1/100 := by
    rw [div_pow, div_lt_div_iff₀ (by positivity) (by norm_num)]
    norm_num
  have heq : epsAfter 919 = ((199 : ℚ)/200)^919 := by
    show epsDecayStep (1/100) (199/200) (epsAfter 918) = _
    rw [epsAfter_eq_pow 918 h918]
    unfold epsDecayStep
    rw [if_pos h918, ← pow_succ]
  rw [heq]
  exact h919

/-- Claim C5 as amended: epsilon starts at `1.0` and each training update
multiplies it by `0.995` only while it is strictly above `0.01`, leaving
it unchanged otherwise; consequently after every sequence of training
updates epsilon is at least `0.01 * 0.995 = 0.00995` (one decay step below
the nominal minimum), though it can end strictly below `0.01`. -/
theorem epsilon_lower_bound :
    epsAfter 0 = 1 ∧ ∀ n : ℕ, (199 : ℚ)/20000 ≤ epsAfter n := by
  refine ⟨rfl, ?_⟩
  intro n
  induction n with
  | zero => norm_num [epsAfter]
  | succ n ih =>
    show (199 : ℚ)/20000 ≤ epsDecayStep (1/100) (199/200) (epsAfter n)
    unfold epsDecayStep
    by_cases h : (1 : ℚ)/100 < epsAfter n
    · rw [if_pos h]
      calc (199 : ℚ)/20000 = (1/100) * (199/200) := by norm_num
        _ ≤ epsAfter n * (199/200) :=
            mul_le_mul_of_nonneg_right (le_of_lt h) (by norm_num)
    · rw [if_neg h]
      exact ih

/-- Folding deque pushes from any under-capacity buffer keeps exactly the
last 4000 of the concatenated stream (ring-buffer semantics). -/
theorem foldl_pushBuf_drop {α : Type} :
    ∀ (ts : List α) (buf : List α), buf.length ≤ 4000 →
      List.foldl pushBuf buf ts = (buf ++ ts).drop (buf.length + ts.length - 4000) := by
  intro ts
  induction ts with
  | nil =>
    intro buf h
    simp [Nat.sub_eq_zero_of_le h]
  | cons t ts ih =>
    intro buf h
    by_cases hlt : buf.length < 4000
    · have hstep : pushBuf buf t = buf ++ [t] := by unfold pushBuf; rw [if_pos hlt]
      have hlen : (buf ++ [t]).length ≤ 4000 := by simp; omega
      have hidx : (buf ++ [t]).length + ts.length - 4000 =
          buf.length + (t :: ts).length - 4000 := by simp; omega
      calc List.foldl pushBuf buf (t :: ts)
          = List.foldl pushBuf (buf ++ [t]) ts := by rw [List.foldl_cons, hstep]
        _ = ((buf ++ [t]) ++ ts).drop ((buf ++ [t]).length + ts.length - 4000) := ih _ hlen
        _ = (buf ++ t :: ts).drop (buf.length + (t :: ts).length - 4000) := by
            rw [hidx, List.append_assoc, List.singleton_append]
    · have h4000 : buf.length = 4000 := by omega
      cases buf with
      | nil => simp at h4000
      | cons b bt =>
        have hbt : bt.length = 3999 := by
          simp only [List.length_cons] at h4000
          omega
        have hstep : pushBuf (b :: bt) t = bt ++ [t] := by
          unfold pushBuf
          rw [if_neg hlt]
          rfl
        have hlen : (bt ++ [t]).length ≤ 4000 := by simp [hbt]
        have hidx1 : (bt ++ [t]).length + ts.length - 4000 = ts.length := by simp [hbt]
        have hidx2 : (b :: bt).length + (t :: ts).length - 4000 = ts.length + 1 := by
          simp [hbt]
        calc List.foldl pushBuf (b :: bt) (t :: ts)
            = List.foldl pushBuf (bt ++ [t]) ts := by rw [List.foldl_cons, hstep]
          _ = ((bt ++ [t]) ++ ts).drop ((bt ++ [t]).length + ts.length - 4000) := ih _ hlen
          _ = ((b :: bt) ++ t :: ts).drop ((b :: bt).length + (t :: ts).length - 4000) := by
            rw [hidx1, hidx2, List.append_assoc, List.singleton_append, List.cons_append,
              List.drop_succ_cons]

/-- Claim C8: a replay buffer built by any sequence of pushes never holds
more than the capacity 4000, and after exactly 4001 pushes the buffer is
the push stream minus its first element: the oldest transition has been
evicted and the remaining 4000 are present in order. -/
theorem pushBuf_capacity_fifo :
    (∀ ts : List Transition, (List.foldl pushBuf [] ts).length ≤ 4000) ∧
    (∀ ts : List Transition, ts.length = 4001 → List.foldl pushBuf [] ts = ts.tail) := by
  constructor
  · intro ts
    rw [foldl_pushBuf_drop ts [] (by simp)]
    simp
    omega
  · intro ts h
    rw [foldl_pushBuf_drop ts [] (by simp)]
    simp [h, List.drop_one]

/-- Witness for C8: 4001 pushes of a concrete transition leave the stream
minus its first element. -/
theorem pushBuf_capacity_fifo_witness :
    (List.replicate 4001 (⟨[], 0, 0, [], false⟩ : Transition)).length = 4001 ∧
    List.foldl pushBuf [] (List.replicate 4001 (⟨[], 0, 0, [], false⟩ : Transition)) =
      (List.replicate 4001 (⟨[], 0, 0, [], false⟩ : Transition)).tail :=
  ⟨List.length_replicate _ _, pushBuf_capacity_fifo.2 _ (List.length_replicate _ _)⟩

/-- The insertion sort of line 118 keeps the length of the map. -/
theorem sortedDesc_length (m : List (String × ℚ)) :
    (sortedDesc m).length = m.length :=
  (List.perm_insertionSort byInitiativeDesc m).length_eq

/-- The sorted key sequence is a permutation of the original key
sequence. -/
theorem sortedDesc_keys_perm (m : List (String × ℚ)) :
    ((sortedDesc m).map Prod.fst).Perm (m.map Prod.fst) :=
  List.Perm.map Prod.fst (List.perm_insertionSort byInitiativeDesc m)

/-- Over the full 7-emotion key set the sorted map has at least three
entries, exposed as an explicit decomposition. -/
theorem sortedDesc_decompose (m : List (String × ℚ))
    (hk : m.map Prod.fst = emotions) :
    ∃ x0 x1 x2 rest, sortedDesc m = x0 :: x1 :: x2 :: rest := by
  have hlen : (sortedDesc m).length = 7 := by
    rw [sortedDesc_length]
    have h7 := congrArg List.length hk
    simpa using h7
  rcases hs : sortedDesc m with _ | ⟨x0, _ | ⟨x1, _ | ⟨x2, rest⟩⟩⟩
  · rw [hs] at hlen
    simp at hlen
  · rw [hs] at hlen
    simp at hlen
  · rw [hs] at hlen
    simp at hlen
  · exact ⟨x0, x1, x2, rest, rfl⟩

/-- Claim C4: for every initiative map over the fixed emotion set, the
action mapping ranks the emotions descending by initiative (the ranking
is sorted under `byInitiativeDesc` and is a permutation of the map), and
returns the top one, two, and three ranked names for actions 0, 1 and 2;
on the spec's example (joy 5, anger 3, fear 3, others 1) the tie between
anger and fear is broken by the original emotion order, giving `[joy]`,
`[joy, anger]` and `[joy, anger, fear]`. -/
theorem mapActionToEmotions_ranking :
    (∀ m : List (String × ℚ), m.map Prod.fst = emotions →
      List.Sorted byInitiativeDesc (sortedDesc m) ∧ (sortedDesc m).Perm m ∧
      mapActionToEmotions m 0 = some (((sortedDesc m).map Prod.fst).take 1) ∧
      mapActionToEmotions m 1 = some (((sortedDesc m).map Prod.fst).take 2) ∧
      mapActionToEmotions m 2 = some (((sortedDesc m).map Prod.fst).take 3)) ∧
    (mapActionToEmotions exampleInitiativeMap 0 = some ["joy"] ∧
     mapActionToEmotions exampleInitiativeMap 1 = some ["joy", "anger"] ∧
     mapActionToEmotions exampleInitiativeMap 2 = some ["joy", "anger", "fear"]) := by
  constructor
  · intro m hk
    obtain ⟨x0, x1, x2, rest, hs⟩ := sortedDesc_decompose m hk
    refine ⟨List.sorted_insertionSort byInitiativeDesc m,
            List.perm_insertionSort byInitiativeDesc m, ?_, ?_, ?_⟩
    · simp [mapActionToEmotions, hs]
    · simp [mapActionToEmotions, hs]
    · simp [mapActionToEmotions, hs]
  · exact ⟨by decide, by decide, by decide⟩

/-- Witness for C4's universally quantified part at the example map. -/
theorem mapActionToEmotions_ranking_witness :
    exampleInitiativeMap.map Prod.fst = emotions ∧
    (List.Sorted byInitiativeDesc (sortedDesc exampleInitiativeMap) ∧
     (sortedDesc exampleInitiativeMap).Perm exampleInitiativeMap ∧
     mapActionToEmotions exampleInitiativeMap 0 =
       some (((sortedDesc exampleInitiativeMap).map Prod.fst).take 1) ∧
     mapActionToEmotions exampleInitiativeMap 1 =
       some (((sortedDesc exampleInitiativeMap).map Prod.fst).take 2) ∧
     mapActionToEmotions exampleInitiativeMap 2 =
       some (((sortedDesc exampleInitiativeMap).map Prod.fst).take 3)) :=
  ⟨by decide, mapActionToEmotions_ranking.1 exampleInitiativeMap (by decide)⟩

/-- Claim C10: over the full emotion set the action mapping is total on
all integer actions: it always returns (without error) a list of one, two
or three distinct known emotions — one for action 0, two for action 1 —
and every other integer action, not only 2, yields the top three ranked
emotions. -/
theorem mapActionToEmotions_total (m : List (String × ℚ))
    (hk : m.map Prod.fst = emotions) (a : ℤ) :
    ∃ l, mapActionToEmotions m a = some l ∧ l.Nodup ∧
      (∀ x ∈ l, x ∈ emotions) ∧
      l.length = (if a = 0 then 1 else if a = 1 then 2 else 3) ∧
      ((a ≠ 0 ∧ a ≠ 1) → l = ((sortedDesc m).map Prod.fst).take 3) := by
  obtain ⟨x0, x1, x2, rest, hs⟩ := sortedDesc_decompose m hk
  have hperm : ((sortedDesc m).map Prod.fst).Perm emotions := by
    rw [← hk]
    exact sortedDesc_keys_perm m
  have hnd : ((sortedDesc m).map Prod.fst).Nodup :=
    hperm.nodup_iff.mpr (by decide)
  have hmap : (sortedDesc m).map Prod.fst =
      x0.1 :: x1.1 :: x2.1 :: rest.map Prod.fst := by
    rw [hs]
    rfl
  have hmem0 : x0.1 ∈ emotions := hperm.subset (by rw [hmap]; simp)
  have hmem1 : x1.1 ∈ emotions := hperm.subset (by rw [hmap]; simp)
  have hmem2 : x2.1 ∈ emotions := hperm.subset (by rw [hmap]; simp)
  have h01 : x0.1 ≠ x1.1 := by
    intro hx
    rw [hmap] at hnd
    simp [hx] at hnd
  have h02 : x0.1 ≠ x2.1 := by
    intro hx
    rw [hmap] at hnd
    simp [hx] at hnd
  have h12 : x1.1 ≠ x2.1 := by
    intro hx
    rw [hmap] at hnd
    simp [hx] at hnd
  by_cases ha0 : a = 0
  · subst ha0
    refine ⟨[x0.1], by simp [mapActionToEmotions, hs], by simp, ?_, by simp, ?_⟩
    · intro x hx
      simp at hx
      subst hx
      exact hmem0
    · intro h
      exact absurd rfl h.1
  · by_cases ha1 : a = 1
    · subst ha1
      refine ⟨[x0.1, x1.1], by simp [mapActionToEmotions, hs], by simp [h01], ?_,
              by simp [ha0], ?_⟩
      · intro x hx
        simp at hx
        rcases hx with h | h
        · subst h; exact hmem0
        · subst h; exact hmem1
      · intro h
        exact absurd rfl h.2
    · refine ⟨[x0.1, x1.1, x2.1], by simp [mapActionToEmotions, hs, ha0, ha1],
              by simp [h01, h02, h12], ?_, by simp [ha0, ha1], ?_⟩
      · intro x hx
        simp at hx
        rcases hx with h | h | h
        · subst h; exact hmem0
        · subst h; exact hmem1
        · subst h; exact hmem2
      · intro _
        rw [hmap]
        rfl

/-- Witness for C10 at the example map with the out-of-range action 5. -/
theorem mapActionToEmotions_total_witness :
    exampleInitiativeMap.map Prod.fst = emotions ∧
    (∃ l, mapActionToEmotions exampleInitiativeMap 5 = some l ∧ l.Nodup ∧
      (∀ x ∈ l, x ∈ emotions) ∧
      l.length = (if (5 : ℤ) = 0 then 1 else if (5 : ℤ) = 1 then 2 else 3) ∧
      (((5 : ℤ) ≠ 0 ∧ (5 : ℤ) ≠ 1) →
        l = ((sortedDesc exampleInitiativeMap).map Prod.fst).take 3)) :=
  ⟨by decide, mapActionToEmotions_total exampleInitiativeMap (by decide) 5⟩
